import Mathlib

/-
Verification of the glow-station TEC serial-protocol client.

Shallow embedding conventions:
* Rust `f32` values are modelled as exact rationals (ℚ).  Every numeric
  literal appearing in the protocol is a finite decimal, which ℚ represents
  exactly; `inf`/`nan` spellings of the Rust float grammar are outside the
  model (the device never emits them and the embedded parsers reject them).
* Rust strings are modelled as `List Char` with thin `String` wrappers.
  The protocol is 7-bit ASCII, so `char::is_whitespace` and
  `char::is_alphabetic` are modelled on the ASCII range.
* Fallible Rust functions returning `Result<T, Box<dyn Error>>` are modelled
  as `Except String T`; error strings follow the Rust messages.
* `Instant` time stamps are modelled as natural numbers in milliseconds.
-/

deriving instance DecidableEq for Except

namespace GlowStation

/-- Rust `char::is_whitespace`, restricted to the ASCII range used by the
protocol. -/
def rustIsWhitespace (c : Char) : Bool :=
  c == ' ' || c == '\t' || c == '\n' || c == '\r' || c == '\x0b' || c == '\x0c'

/-- Rust `char::is_alphabetic`, restricted to the ASCII range used by the
protocol. -/
def rustIsAlphabetic (c : Char) : Bool :=
  (97 ≤ c.toNat && c.toNat ≤ 122) || (65 ≤ c.toNat && c.toNat ≤ 90)

/-- ASCII decimal digit (the digits accepted by Rust numeric `from_str`). -/
def isDigitChar (c : Char) : Bool :=
  48 ≤ c.toNat && c.toNat ≤ 57

/-- Rust `str::trim` (both ends). -/
def rustTrim (l : List Char) : List Char :=
  ((l.dropWhile rustIsWhitespace).reverse.dropWhile rustIsWhitespace).reverse

/-- Rust `str::split(sep)` for a single-character separator: always at least
one (possibly empty) section. -/
def splitOnChar (sep : Char) : List Char → List (List Char)
  | [] => [[]]
  | c :: cs =>
    if c == sep then [] :: splitOnChar sep cs
    else
      match splitOnChar sep cs with
      | [] => [[c]]
      | h :: t => (c :: h) :: t

/-- Helper for `splitWhitespace`: `acc` holds the current word reversed. -/
def splitWsAux : List Char → List Char → List (List Char)
  | [], acc => if acc.isEmpty then [] else [acc.reverse]
  | c :: cs, acc =>
    if rustIsWhitespace c then
      if acc.isEmpty then splitWsAux cs [] else acc.reverse :: splitWsAux cs []
    else splitWsAux cs (c :: acc)

/-- Rust `str::split_whitespace`: splits on runs of whitespace, no empty
tokens. -/
def splitWhitespace (l : List Char) : List (List Char) :=
  splitWsAux l []

/-- Helper for `splitDots`: `acc` holds the current section reversed. -/
def splitDotsAux : List Char → List Char → List (List Char)
  | '.' :: '.' :: '.' :: rest, acc => acc.reverse :: splitDotsAux rest []
  | c :: rest, acc => splitDotsAux rest (c :: acc)
  | [], acc => [acc.reverse]

/-- Rust `str::split("...")`: leftmost-first, non-overlapping. -/
def splitDots (l : List Char) : List (List Char) :=
  splitDotsAux l []

/-- Numeric value of an ASCII digit character. -/
def digitVal (c : Char) : Nat := c.toNat - 48

/-- Value of a most-significant-first digit string. -/
def natOfDigits (l : List Char) : Nat :=
  l.foldl (fun a c => 10 * a + digitVal c) 0

/-- Optional leading sign of a Rust numeric literal: `(isNegative, rest)`. -/
def takeSign (l : List Char) : Bool × List Char :=
  match l with
  | [] => (false, [])
  | c :: cs =>
    if c == '+' then (false, cs)
    else if c == '-' then (true, cs)
    else (false, c :: cs)

/-- Rust `f32::from_str` on its finite decimal grammar
`sign? (digit+ ('.' digit*)? | '.' digit+) (('e'|'E') sign? digit+)?`,
evaluated exactly in ℚ.  The decimal value `sign ip.fp ⬝ 10^(±e)` is
assembled as one normalized rational via `mkRat` (numerator
`ip*10^|fp| + fp` over denominator `10^|fp|`, scaled by the exponent).
(`inf`/`nan` spellings are not modelled: the ℚ embedding has no
infinities and the device emits only finite decimals.) -/
def parseFloatChars (l : List Char) : Option ℚ :=
  let sr := takeSign l
  let neg := sr.1
  let cs := sr.2
  let ip := cs.takeWhile isDigitChar
  let rest1 := cs.dropWhile isDigitChar
  let mant? : Option ((Nat × Nat) × List Char) :=
    match rest1 with
    | '.' :: rest2 =>
      let fp := rest2.takeWhile isDigitChar
      let rest3 := rest2.dropWhile isDigitChar
      if ip.isEmpty && fp.isEmpty then none
      else some ((natOfDigits ip * 10 ^ fp.length + natOfDigits fp, fp.length), rest3)
    | _ => if ip.isEmpty then none else some ((natOfDigits ip, 0), rest1)
  match mant? with
  | none => none
  | some ((n, fl), rest) =>
    let num : Int := if neg then -(n : Int) else (n : Int)
    match rest with
    | [] => some (mkRat num (10 ^ fl))
    | e :: rest2 =>
      if e == 'e' || e == 'E' then
        let esr := takeSign rest2
        let ds := esr.2.takeWhile isDigitChar
        let rest3 := esr.2.dropWhile isDigitChar
        if ds.isEmpty || !rest3.isEmpty then none
        else if esr.1 then some (mkRat num (10 ^ (fl + natOfDigits ds)))
        else some (mkRat (num * ((10 ^ natOfDigits ds : Nat) : Int)) (10 ^ fl))
      else none

/-- Rust `u8::from_str`: optional `+`, digits, value below 256. -/
def parseU8Chars (l : List Char) : Option Nat :=
  let cs := match l with
    | '+' :: cs => cs
    | cs => cs
  if cs.isEmpty then none
  else if cs.all isDigitChar then
    if natOfDigits cs < 256 then some (natOfDigits cs) else none
  else none

/-- `TecConfig` from src/src/tec.rs (f32 fields as exact rationals). -/
structure TecConfig where
  t_set : ℚ
  p : ℚ
  i : ℚ
  d : ℚ
  t_min : ℚ
  t_max : ℚ
deriving DecidableEq, Repr

/-- `TecReadout` from src/src/tec.rs (f32 fields as exact rationals). -/
structure TecReadout where
  t_set : ℚ
  P : ℚ
  I : ℚ
  D : ℚ
  t_min : ℚ
  t_max : ℚ
  t_measured : ℚ
  OC : Bool
  PWM : ℚ
deriving DecidableEq, Repr

/-- The section filter used throughout `TecController::parse_readout`:
strip every alphabetic and every whitespace character. -/
def filterSection (l : List Char) : List Char :=
  l.filter (fun c => !rustIsAlphabetic c && !rustIsWhitespace c)

/-- The `parse_section` closure of `TecController::parse_readout`. -/
def parseSection (l : List Char) : Option ℚ :=
  parseFloatChars (filterSection l)

/-- `TecController::parse_readout` (src/src/tec.rs lines 212-272).
Error strings follow the Rust source; all float-parse failures carry Rust's
uniform `invalid float literal` message, so collapsing the per-field parse
order into simultaneous matches preserves the returned value. -/
def parse_readout (response : String) : Except String TecReadout :=
  let sections := splitOnChar '=' (rustTrim response.data)
  if sections.length < 9 then Except.error "Not enough sections in response"
  else
    match parseSection (sections.getD 1 []), parseSection (sections.getD 2 []),
          parseSection (sections.getD 3 []), parseSection (sections.getD 4 []) with
    | some v_t_set, some vP, some vI, some vD =>
      let tempParts := splitDots (filterSection (sections.getD 5 []))
      if tempParts.length ≠ 2 then Except.error "Invalid temperature range format"
      else
        match parseFloatChars (tempParts.getD 0 []), parseFloatChars (tempParts.getD 1 []),
              parseSection (sections.getD 6 []) with
        | some v_t_min, some v_t_max, some v_t_meas =>
          match parseU8Chars (filterSection (sections.getD 7 [])) with
          | some 0 =>
            match parseSection (sections.getD 8 []) with
            | some vPWM =>
              Except.ok ⟨v_t_set, vP, vI, vD, v_t_min, v_t_max, v_t_meas, false, vPWM⟩
            | none => Except.error "invalid float literal"
          | some 1 =>
            match parseSection (sections.getD 8 []) with
            | some vPWM =>
              Except.ok ⟨v_t_set, vP, vI, vD, v_t_min, v_t_max, v_t_meas, true, vPWM⟩
            | none => Except.error "invalid float literal"
          | some _ => Except.error "Invalid OC value"
          | none => Except.error "invalid digit found in string"
        | _, _, _ => Except.error "invalid float literal"
    | _, _, _, _ => Except.error "invalid float literal"

/-- `response.trim_start_matches('<').trim_end_matches('>')`: strip every
leading `<` and every trailing `>`. -/
def dropAngles (l : List Char) : List Char :=
  ((l.dropWhile (· == '<')).reverse.dropWhile (· == '>')).reverse

/-- `TecController::parse_config_acknowledgment` (src/src/tec.rs lines
274-298), on the character list of the response.  The only supported shape
is positional: the content between the angle brackets is split on
whitespace into exactly six tokens parsed in command order. -/
def parse_config_ack_chars (l : List Char) : Except String TecConfig :=
  let parts := splitWhitespace (dropAngles l)
  if parts.length ≠ 6 then
    Except.error ("Invalid config format: expected 6 values, got " ++ toString parts.length)
  else
    match parseFloatChars (parts.getD 0 []), parseFloatChars (parts.getD 1 []),
          parseFloatChars (parts.getD 2 []), parseFloatChars (parts.getD 3 []),
          parseFloatChars (parts.getD 4 []), parseFloatChars (parts.getD 5 []) with
    | some a, some b, some c, some d, some e, some f =>
      Except.ok ⟨a, b, c, d, e, f⟩
    | _, _, _, _, _, _ => Except.error "invalid float literal"

/-- String wrapper for `TecController::parse_config_acknowledgment`. -/
def parse_config_acknowledgment (response : String) : Except String TecConfig :=
  parse_config_ack_chars response.data

/-- The per-field tolerance of `TecController::validate_config_match`. -/
def tolerance : ℚ := 1 / 100

/-- Rust `f32::abs`. -/
def rustAbs (q : ℚ) : ℚ :=
  if q < 0 then -q else q

/-- `TecController::validate_config_match` (src/src/tec.rs lines 300-339).
Error messages keep the field-identifying prefix of the Rust source; the
formatted sent/received values appended there are omitted. -/
def validate_config_match (sent received : TecConfig) : Except String Unit :=
  if tolerance < rustAbs (sent.t_set - received.t_set) then
    Except.error "T_set mismatch"
  else if tolerance < rustAbs (sent.p - received.p) then
    Except.error "P mismatch"
  else if tolerance < rustAbs (sent.i - received.i) then
    Except.error "I mismatch"
  else if tolerance < rustAbs (sent.d - received.d) then
    Except.error "D mismatch"
  else if tolerance < rustAbs (sent.t_min - received.t_min) then
    Except.error "T_min mismatch"
  else if tolerance < rustAbs (sent.t_max - received.t_max) then
    Except.error "T_max mismatch"
  else Except.ok ()

/-- The response handling of `TecController::set_configuration`
(src/src/tec.rs lines 166-199), given the acknowledgment line read from the
device.  Note the source structure: a validation failure propagates as an
error (`?`), but a parse failure of the acknowledgment, or an acknowledgment
without angle-bracket framing, is only logged as a warning and the call
still returns `Ok(trimmed_response)`.  `TecController` (lines 67-69) holds
only the serial port: there is no cached configuration field to update. -/
def set_configuration_ack (config : TecConfig) (response : String) : Except String String :=
  let trimmed := rustTrim response.data
  if trimmed.head? = some '<' ∧ trimmed.getLast? = some '>' then
    match parse_config_ack_chars trimmed with
    | Except.ok returned =>
      match validate_config_match config returned with
      | Except.ok _ => Except.ok (String.mk trimmed)
      | Except.error e => Except.error e
    | Except.error _ => Except.ok (String.mk trimmed)
  else Except.ok (String.mk trimmed)

/-- A finite decimal numeral: value `mant / 10 ^ frac`.  Every Rust `f32`
value is of this form, and `format!("{}", x)` for an `f32` prints a decimal
numeral denoting a value that reparses to `x`; the embedding prints the
exact decimal expansion. -/
structure DecimalVal where
  mant : Int
  frac : Nat
deriving DecidableEq, Repr

/-- The rational value of a decimal numeral. -/
def DecimalVal.toRat (v : DecimalVal) : ℚ :=
  mkRat v.mant (10 ^ v.frac)

/-- The ASCII digit character for a value below ten. -/
def digitChar : Nat → Char
  | 0 => '0'
  | 1 => '1'
  | 2 => '2'
  | 3 => '3'
  | 4 => '4'
  | 5 => '5'
  | 6 => '6'
  | 7 => '7'
  | 8 => '8'
  | _ => '9'

/-- Most-significant-first decimal digits of `n`, prepended to `acc`. -/
def natDigitsAux (n : Nat) (acc : List Char) : List Char :=
  if n < 10 then digitChar n :: acc
  else natDigitsAux (n / 10) (digitChar (n % 10) :: acc)
termination_by n
decreasing_by exact Nat.div_lt_self (by omega) (by omega)

/-- Decimal digit string of a natural number (never empty). -/
def natDigits (n : Nat) : List Char :=
  natDigitsAux n []

/-- Exactly `k` decimal digits of `n < 10 ^ k`, zero padded. -/
def padDigits : Nat → Nat → List Char
  | 0, _ => []
  | k + 1, n => digitChar (n / 10 ^ k) :: padDigits k (n % 10 ^ k)

/-- Decimal rendering of a `DecimalVal`: optional minus sign, integer
digits, and (when `frac > 0`) a point followed by `frac` fraction digits. -/
def fmtDecimal (v : DecimalVal) : List Char :=
  (if v.mant < 0 then ['-'] else []) ++
    natDigits (v.mant.natAbs / 10 ^ v.frac) ++
    (if v.frac = 0 then [] else '.' :: padDigits v.frac (v.mant.natAbs % 10 ^ v.frac))

/-- A configuration whose six fields are decimal numerals (the image of the
`f32` fields of a `TecConfig`). -/
structure DecimalConfig where
  t_set : DecimalVal
  p : DecimalVal
  i : DecimalVal
  d : DecimalVal
  t_min : DecimalVal
  t_max : DecimalVal
deriving DecidableEq, Repr

/-- The rational-valued configuration a `DecimalConfig` denotes. -/
def DecimalConfig.toConfig (c : DecimalConfig) : TecConfig :=
  ⟨c.t_set.toRat, c.p.toRat, c.i.toRat, c.d.toRat, c.t_min.toRat, c.t_max.toRat⟩

/-- The configuration command built by `TecController::set_configuration`:
`format!("<{} {} {} {} {} {}>", t_set, p, i, d, t_min, t_max)`. -/
def configCommandChars (c : DecimalConfig) : List Char :=
  '<' :: (fmtDecimal c.t_set ++ ' ' :: fmtDecimal c.p ++ ' ' :: fmtDecimal c.i ++
    ' ' :: fmtDecimal c.d ++ ' ' :: fmtDecimal c.t_min ++ ' ' :: fmtDecimal c.t_max) ++ ['>']

/-- `SetpointChange` from src/src/tui.rs (instants as milliseconds). -/
structure SetpointChange where
  target_temp : ℚ
  start_time : Nat
  reached_time : Option Nat
  duration : Option Nat
deriving DecidableEq, Repr

/-- The slice of the `App` state of src/src/tui.rs that the verified
operations touch (presentation-only fields are omitted). -/
structure App where
  current_config : TecConfig
  current_setpoint_change : Option SetpointChange
  setpoint_history : List SetpointChange
  temp_tolerance : ℚ
  pending_config : Bool
  last_config_sent : Nat
deriving DecidableEq, Repr

/-- `App::check_setpoint_reached` (src/src/tui.rs lines 247-272), at time
`now`: if an unreached setpoint change is open and the measured temperature
is within tolerance of its target, populate `reached_time`/`duration`, push
the completed record onto the bounded history (capacity 100, oldest evicted
first) and clear the open record. -/
def check_setpoint_reached (now : Nat) (measured_temp : ℚ) (a : App) : App :=
  match a.current_setpoint_change with
  | none => a
  | some sc =>
    if sc.reached_time.isNone then
      if rustAbs (measured_temp - sc.target_temp) ≤ a.temp_tolerance then
        let sc' : SetpointChange :=
          { sc with reached_time := some now, duration := some (now - sc.start_time) }
        let h := a.setpoint_history ++ [sc']
        { a with current_setpoint_change := none,
                 setpoint_history := if 100 < h.length then h.tail else h }
      else a
    else a

/-- `App::apply_configuration` (src/src/tui.rs lines 291-297): mark the
configuration pending and restart the debounce timer from the last change. -/
def apply_configuration (now : Nat) (a : App) : App :=
  { a with pending_config := true, last_config_sent := now }

/-- `DEBOUNCE_MS` from `App::send_config_if_pending`. -/
def DEBOUNCE_MS : Nat := 150

/-- `App::send_config_if_pending` (src/src/tui.rs lines 299-310): once the
quiescence window has elapsed with the configuration still pending, emit one
`SetConfig` carrying the current configuration (the `Option` component) and
clear the pending flag. -/
def send_config_if_pending (now : Nat) (a : App) : Option TecConfig × App :=
  if a.pending_config = true ∧ DEBOUNCE_MS ≤ now - a.last_config_sent then
    (some a.current_config, { a with pending_config := false })
  else (none, a)

/-- Rust `f32::clamp` (caller must have `lo ≤ hi`). -/
def rustClamp (x lo hi : ℚ) : ℚ :=
  if x < lo then lo else if hi < x then hi else x

/-- `App::set_new_temperature` (src/src/tui.rs lines 274-289): clamp the
request into the configured band; when the clamped value moves `t_set` by
more than 0.01, install it, open a fresh setpoint-change record and schedule
a debounced configuration write; otherwise do nothing. -/
def set_new_temperature (now : Nat) (new_temp : ℚ) (a : App) : App :=
  let clamped := rustClamp new_temp a.current_config.t_min a.current_config.t_max
  if 1 / 100 < rustAbs (clamped - a.current_config.t_set) then
    apply_configuration now
      { a with
        current_config := { a.current_config with t_set := clamped },
        current_setpoint_change :=
          some { target_temp := clamped, start_time := now, reached_time := none,
                 duration := none } }
  else a

/-- A user-interface event relevant to the debouncer: a configuration edit
(a key press mutating `current_config` and calling `apply_configuration`),
or one execution of the main loop's `send_config_if_pending` check. -/
inductive UiEvent where
  | editConfig (c : TecConfig)
  | debounceCheck
deriving DecidableEq, Repr

/-- One timed user-interface event against the app state; the `Option`
component is the `SetConfig` command enqueued to the worker, if any,
stamped with its enqueue time. -/
def ui_step (t : Nat) (e : UiEvent) (a : App) : Option (Nat × TecConfig) × App :=
  match e with
  | UiEvent.editConfig c => (none, apply_configuration t { a with current_config := c })
  | UiEvent.debounceCheck =>
    match send_config_if_pending t a with
    | (some c, a') => (some (t, c), a')
    | (none, a') => (none, a')

/-- Process a timed event list in order, collecting every enqueued
`SetConfig` command with its enqueue time. -/
def ui_run : List (Nat × UiEvent) → App → List (Nat × TecConfig) × App
  | [], a => ([], a)
  | (t, e) :: rest, a =>
    let st := ui_step t e a
    let tl := ui_run rest st.2
    (st.1.toList ++ tl.1, tl.2)

/-- Debounce checks at the given times. -/
def checksAt (ts : List Nat) : List (Nat × UiEvent) :=
  ts.map (fun t => (t, UiEvent.debounceCheck))

/-- `WorkerCommand` from src/src/tui.rs. -/
inductive WorkerCommand where
  | SetConfig (c : TecConfig)
  | Enable
  | Disable
  | Shutdown
deriving DecidableEq, Repr

/-- `WorkerResponse` from src/src/tui.rs. -/
inductive WorkerResponse where
  | Readout (r : TecReadout)
  | Error (msg : String)
  | Status (msg : String)
deriving DecidableEq, Repr

/-- The worker loop state: `lastRead` is the `last_read` instant (reset
after every readout attempt); `lastSuccess` is a ghost field recording the
last successful readout, used only to state the polling claim. -/
structure WorkerState where
  lastRead : Nat
  lastSuccess : Nat
deriving DecidableEq, Repr

/-- `read_interval` from `worker_thread` (500 ms). -/
def read_interval : Nat := 500

/-- The observable outcome of one worker loop iteration. -/
structure IterResult where
  responses : List WorkerResponse
  state : WorkerState
  stopped : Bool
  didRead : Bool
deriving DecidableEq, Repr

/-- One iteration of the `worker_thread` loop (src/src/tui.rs lines
537-591), at time `now`.  `cmd` is the command drained by `try_recv` (if
any); `cmdResult` the controller's result for that command (`set_configuration`,
`enable` and `disable` all return `Result<String>`); `readResult` the result
of `get_single_readout` if a read is attempted.  `Shutdown` breaks the loop
before the periodic read.  The periodic read fires whenever `read_interval`
has elapsed since `last_read`, which is reset after every attempt, successful
or not; `didRead` records whether `get_single_readout` was called. -/
def worker_iteration (now : Nat) (cmd : Option WorkerCommand)
    (cmdResult : Except String String) (readResult : Except String TecReadout)
    (s : WorkerState) : IterResult :=
  match cmd with
  | some WorkerCommand.Shutdown => ⟨[], s, true, false⟩
  | _ =>
    let cmdResp : List WorkerResponse :=
      match cmd with
      | some (WorkerCommand.SetConfig _) =>
        match cmdResult with
        | Except.ok _ => [WorkerResponse.Status "Config updated"]
        | Except.error e => [WorkerResponse.Error ("Config error: " ++ e)]
      | some WorkerCommand.Enable =>
        match cmdResult with
        | Except.ok _ => [WorkerResponse.Status "TEC ENABLED"]
        | Except.error e => [WorkerResponse.Error ("Enable error: " ++ e)]
      | some WorkerCommand.Disable =>
        match cmdResult with
        | Except.ok _ => [WorkerResponse.Status "TEC DISABLED"]
        | Except.error e => [WorkerResponse.Error ("Disable error: " ++ e)]
      | _ => []
    if read_interval ≤ now - s.lastRead then
      match readResult with
      | Except.ok r => ⟨cmdResp ++ [WorkerResponse.Readout r], ⟨now, now⟩, false, true⟩
      | Except.error e =>
        ⟨cmdResp ++ [WorkerResponse.Error ("Read error: " ++ e)], ⟨now, s.lastSuccess⟩, false, true⟩
    else ⟨cmdResp, s, false, false⟩

/-- Observable actions of `Experiment::run` (src/src/experiment.rs lines
208-352) on the TEC device, the camera and the phase log. -/
inductive ExpEvent where
  | configure
  | enableTec
  | startPhase (name : String)
  | setTempCmd (t : ℚ)
  | cameraStart
  | cameraStop
  | disableTec
deriving DecidableEq, Repr

/-- The outcomes of the fallible collaborator calls made by
`Experiment::run`: the configure and enable results, whether each
convergence wait (`wait_for_temperature`) reached its target before the
deadline, the camera-stop result and the disable result. -/
structure ExpOutcomes where
  configResult : Except String String
  enableResult : Except String String
  wait0Reached : Bool
  wait2Reached : Bool
  cameraStopResult : Except String Unit
  disableResult : Except String String
deriving DecidableEq, Repr

/-- `Experiment::run` as an event trace (src/src/experiment.rs lines
208-352), parameterized by the collaborator outcomes.  Every early `return`
/ `?` of the source ends the trace at that point; the directory, YAML and
CSV side effects are omitted.  Note that on a convergence-wait timeout the
`?` operator returns immediately: the TEC is left enabled. -/
def experimentRun (restTemp snapTemp : ℚ) (o : ExpOutcomes) :
    List ExpEvent × Except String Unit :=
  match o.configResult with
  | Except.error e => ([ExpEvent.configure], Except.error ("TEC configuration failed: " ++ e))
  | Except.ok _ =>
    match o.enableResult with
    | Except.error e => ([ExpEvent.configure], Except.error ("TEC enable failed: " ++ e))
    | Except.ok _ =>
      let ev0 := [ExpEvent.configure, ExpEvent.enableTec,
        ExpEvent.startPhase "Initial stabilization", ExpEvent.setTempCmd restTemp]
      if o.wait0Reached = false then
        (ev0, Except.error "Timeout waiting for temperature")
      else
        let ev2 := ev0 ++ [ExpEvent.cameraStart,
          ExpEvent.startPhase "Pre-record at rest temp",
          ExpEvent.startPhase "Heat to snap temp", ExpEvent.setTempCmd snapTemp]
        if o.wait2Reached = false then
          (ev2, Except.error "Timeout waiting for temperature")
        else
          let ev5 := ev2 ++ [ExpEvent.startPhase "Hold at snap temp",
            ExpEvent.startPhase "Initiate cooling", ExpEvent.setTempCmd restTemp,
            ExpEvent.startPhase "Post-record"]
          match o.cameraStopResult with
          | Except.error e => (ev5 ++ [ExpEvent.cameraStop], Except.error e)
          | Except.ok _ =>
            (ev5 ++ [ExpEvent.cameraStop, ExpEvent.disableTec], Except.ok ())

/-- The digit body of `fmtDecimal`, without the sign. -/
def fmtBody (n f : Nat) : List Char :=
  natDigits (n / 10 ^ f) ++ (if f = 0 then [] else '.' :: padDigits f (n % 10 ^ f))

/-- Tokens joined by single spaces (the shape of the configuration command
payload and of a positional acknowledgment payload). -/
def joinWords : List (List Char) → List Char
  | [] => []
  | [w] => w
  | w :: ws => w ++ ' ' :: joinWords ws

/-- Characters that may occur in a rendered decimal token. -/
def decTokenChar (c : Char) : Prop :=
  c = '-' ∨ c = '.' ∨ isDigitChar c = true

/-- An app state with one open setpoint change: target 24.0 issued at time 0,
tolerance 0.5 (the `temp_tolerance` default of `App::new`). -/
def spTracker0 : App :=
  { current_config := ⟨24, 5, 2, 1, 0, 50⟩
    current_setpoint_change := some ⟨24, 0, none, none⟩
    setpoint_history := []
    temp_tolerance := 1 / 2
    pending_config := false
    last_config_sent := 0 }

/-- `spTracker0` after its setpoint change closed at time `t3`. -/
def spClosed (t3 : Nat) : App :=
  { spTracker0 with
    current_setpoint_change := none
    setpoint_history := [⟨24, 0, some t3, some t3⟩] }

/-- The example configuration of the protocol documentation. -/
def cfgExample : TecConfig := ⟨25, 5, 2, 1, 0, 50⟩

/-- A quiescent app state carrying `cfgExample`. -/
def appExample : App :=
  { current_config := cfgExample
    current_setpoint_change := none
    setpoint_history := []
    temp_tolerance := 1 / 2
    pending_config := false
    last_config_sent := 0 }

/-- An app state whose `t_set` sits 0.005 above `t_max` (within the 0.01
dead band): reachable, e.g. by lowering `t_max` after `t_set` was placed at
the old bound, since `increment_selected_field` never re-clamps `t_set`. -/
def appOutOfBand : App :=
  { current_config := ⟨4001 / 200, 5, 2, 1, 10, 20⟩
    current_setpoint_change := none
    setpoint_history := []
    temp_tolerance := 1 / 2
    pending_config := false
    last_config_sent := 0 }

/-- A benign concrete readout. -/
def exampleReadout : TecReadout := ⟨25, 5, 2, 1, 0, 50, 25, false, 0⟩

end GlowStation

/-
Helper lemmas.
-/

namespace GlowStation

theorem mkRat_div_eq (n : Int) (d : Nat) : mkRat n d = (n : ℚ) / (d : ℚ) := by
  rw [Rat.mkRat_eq_divInt, Rat.divInt_eq_div]
  norm_cast

theorem splitOnChar_ne_nil (sep : Char) (l : List Char) : splitOnChar sep l ≠ [] := by
  induction l with
  | nil => simp [splitOnChar]
  | cons c cs ih =>
    by_cases h : c == sep
    · simp [splitOnChar, h]
    · simp only [splitOnChar, h]
      cases hs : splitOnChar sep cs with
      | nil => exact absurd hs ih
      | cons a t => simp

theorem splitOnChar_length (sep : Char) (l : List Char) :
    (splitOnChar sep l).length = l.countP (fun c => c == sep) + 1 := by
  induction l with
  | nil => simp [splitOnChar]
  | cons c cs ih =>
    by_cases h : c == sep
    · simp [splitOnChar, h, List.countP_cons, ih]
    · simp only [splitOnChar, h]
      cases hs : splitOnChar sep cs with
      | nil => exact absurd hs (splitOnChar_ne_nil sep cs)
      | cons a t =>
        rw [hs] at ih
        simp only [List.length_cons] at ih ⊢
        simp [List.countP_cons, h, ih]

theorem countP_rustTrim_le (p : Char → Bool) (l : List Char) :
    (rustTrim l).countP p ≤ l.countP p := by
  unfold rustTrim
  calc ((((l.dropWhile rustIsWhitespace).reverse.dropWhile rustIsWhitespace)).reverse).countP p
      = (((l.dropWhile rustIsWhitespace).reverse.dropWhile rustIsWhitespace)).countP p := by
        rw [List.countP_reverse]
    _ ≤ ((l.dropWhile rustIsWhitespace).reverse).countP p :=
        (List.dropWhile_sublist _).countP_le p
    _ = (l.dropWhile rustIsWhitespace).countP p := by rw [List.countP_reverse]
    _ ≤ l.countP p := (List.dropWhile_sublist _).countP_le p

theorem digitChar_isDigit (m : Nat) (h : m < 10) : isDigitChar (digitChar m) = true := by
  interval_cases m <;> decide

theorem digitVal_digitChar (m : Nat) (h : m < 10) : digitVal (digitChar m) = m := by
  interval_cases m <;> decide

theorem natDigitsAux_unfold (n : Nat) (acc : List Char) :
    natDigitsAux n acc = if n < 10 then digitChar n :: acc
      else natDigitsAux (n / 10) (digitChar (n % 10) :: acc) := by
  rw [natDigitsAux]

theorem natDigitsAux_append (n : Nat) : ∀ acc : List Char,
    natDigitsAux n acc = natDigitsAux n [] ++ acc := by
  induction n using Nat.strong_induction_on with
  | _ n ih =>
    intro acc
    by_cases h : n < 10
    · rw [natDigitsAux_unfold, natDigitsAux_unfold n [], if_pos h, if_pos h]
      simp
    · have hd : n / 10 < n := Nat.div_lt_self (by omega) (by omega)
      rw [natDigitsAux_unfold, natDigitsAux_unfold n [], if_neg h, if_neg h,
        ih _ hd, ih _ hd (digitChar (n % 10) :: [])]
      simp

theorem natDigits_small (n : Nat) (h : n < 10) : natDigits n = [digitChar n] := by
  rw [natDigits, natDigitsAux_unfold, if_pos h]

theorem natDigits_big (n : Nat) (h : ¬ n < 10) :
    natDigits n = natDigits (n / 10) ++ [digitChar (n % 10)] := by
  rw [natDigits, natDigitsAux_unfold, if_neg h, natDigitsAux_append]
  rfl

theorem natDigits_ne_nil (n : Nat) : natDigits n ≠ [] := by
  by_cases h : n < 10
  · rw [natDigits_small n h]; simp
  · rw [natDigits_big n h]; simp

theorem natDigits_all_digits (n : Nat) : ∀ c ∈ natDigits n, isDigitChar c = true := by
  induction n using Nat.strong_induction_on with
  | _ n ih =>
    by_cases h : n < 10
    · rw [natDigits_small n h]
      intro c hc
      rw [List.mem_singleton] at hc
      subst hc
      exact digitChar_isDigit n h
    · rw [natDigits_big n h]
      intro c hc
      rcases List.mem_append.mp hc with h1 | h2
      · exact ih _ (Nat.div_lt_self (by omega) (by omega)) c h1
      · rw [List.mem_singleton] at h2
        subst h2
        exact digitChar_isDigit _ (Nat.mod_lt _ (by omega))

theorem natOfDigits_append_one (xs : List Char) (c : Char) :
    natOfDigits (xs ++ [c]) = 10 * natOfDigits xs + digitVal c := by
  simp [natOfDigits, List.foldl_append]

theorem natOfDigits_natDigits (n : Nat) : natOfDigits (natDigits n) = n := by
  induction n using Nat.strong_induction_on with
  | _ n ih =>
    by_cases h : n < 10
    · rw [natDigits_small n h]
      simp [natOfDigits, digitVal_digitChar n h]
    · rw [natDigits_big n h, natOfDigits_append_one,
        ih _ (Nat.div_lt_self (by omega) (by omega)),
        digitVal_digitChar _ (Nat.mod_lt _ (by omega))]
      omega

theorem padDigits_length (k n : Nat) : (padDigits k n).length = k := by
  induction k generalizing n with
  | zero => simp [padDigits]
  | succ k ih => simp [padDigits, ih]

theorem padDigits_all_digits (k n : Nat) (h : n < 10 ^ k) :
    ∀ c ∈ padDigits k n, isDigitChar c = true := by
  induction k generalizing n with
  | zero => simp [padDigits]
  | succ k ih =>
    intro c hc
    simp only [padDigits, List.mem_cons] at hc
    rcases hc with rfl | hc
    · refine digitChar_isDigit _ ?_
      have : 10 ^ (k + 1) = 10 ^ k * 10 := by ring
      rw [this] at h
      exact Nat.div_lt_of_lt_mul h
    · exact ih _ (Nat.mod_lt _ (by positivity)) c hc

theorem foldl_padDigits (k n a : Nat) (h : n < 10 ^ k) :
    List.foldl (fun a c => 10 * a + digitVal c) a (padDigits k n) = a * 10 ^ k + n := by
  induction k generalizing n a with
  | zero =>
    simp [padDigits]
    omega
  | succ k ih =>
    have hlt : n / 10 ^ k < 10 := by
      have : 10 ^ (k + 1) = 10 ^ k * 10 := by ring
      rw [this] at h
      exact Nat.div_lt_of_lt_mul h
    simp only [padDigits, List.foldl_cons]
    rw [digitVal_digitChar _ hlt, ih _ _ (Nat.mod_lt _ (by positivity))]
    have hmod := Nat.div_add_mod n (10 ^ k)
    have hpow : 10 ^ (k + 1) = 10 ^ k * 10 := by ring
    nlinarith [hmod, hpow]

theorem natOfDigits_padDigits (k n : Nat) (h : n < 10 ^ k) :
    natOfDigits (padDigits k n) = n := by
  have := foldl_padDigits k n 0 h
  simpa [natOfDigits] using this

theorem takeWhile_append_all {p : Char → Bool} (xs ys : List Char)
    (h : ∀ c ∈ xs, p c = true) :
    (xs ++ ys).takeWhile p = xs ++ ys.takeWhile p := by
  induction xs with
  | nil => simp
  | cons c cs ih =>
    have hc : p c = true := h c (List.mem_cons_self c cs)
    simp only [List.cons_append, List.takeWhile_cons, hc, if_true]
    rw [ih (fun u hu => h u (List.mem_cons_of_mem _ hu))]

theorem dropWhile_append_all {p : Char → Bool} (xs ys : List Char)
    (h : ∀ c ∈ xs, p c = true) :
    (xs ++ ys).dropWhile p = ys.dropWhile p := by
  induction xs with
  | nil => simp
  | cons c cs ih =>
    have hc : p c = true := h c (List.mem_cons_self c cs)
    simp only [List.cons_append, List.dropWhile_cons, hc, if_true]
    exact ih (fun u hu => h u (List.mem_cons_of_mem _ hu))

theorem takeWhile_all (xs : List Char) {p : Char → Bool}
    (h : ∀ c ∈ xs, p c = true) : xs.takeWhile p = xs := by
  simpa using takeWhile_append_all xs [] h

theorem dropWhile_all (xs : List Char) {p : Char → Bool}
    (h : ∀ c ∈ xs, p c = true) : xs.dropWhile p = [] := by
  simpa using dropWhile_append_all xs [] h

theorem takeSign_digit (c : Char) (cs : List Char) (h : isDigitChar c = true) :
    takeSign (c :: cs) = (false, c :: cs) := by
  have h1 : (c == '+') = false := by
    cases hbe : (c == '+') with
    | false => rfl
    | true =>
      rw [beq_iff_eq] at hbe
      subst hbe
      exact absurd h (by decide)
  have h2 : (c == '-') = false := by
    cases hbe : (c == '-') with
    | false => rfl
    | true =>
      rw [beq_iff_eq] at hbe
      subst hbe
      exact absurd h (by decide)
  simp [takeSign, h1, h2]

theorem takeSign_minus (cs : List Char) : takeSign ('-' :: cs) = (true, cs) := by
  simp [takeSign]

theorem natDigits_isEmpty (n : Nat) : (natDigits n).isEmpty = false := by
  cases hd : natDigits n with
  | nil => exact absurd hd (natDigits_ne_nil n)
  | cons a l => rfl

theorem natDigits_head_digit (n : Nat) :
    ∃ c cs, natDigits n = c :: cs ∧ isDigitChar c = true := by
  cases hd : natDigits n with
  | nil => exact absurd hd (natDigits_ne_nil n)
  | cons c cs =>
    exact ⟨c, cs, rfl, natDigits_all_digits n c (by rw [hd]; exact List.mem_cons_self c cs)⟩

theorem fmtDecimal_eq_body (v : DecimalVal) :
    fmtDecimal v = (if v.mant < 0 then ['-'] else []) ++ fmtBody v.mant.natAbs v.frac := by
  simp [fmtDecimal, fmtBody]

theorem parseFloat_after_sign (neg : Bool) (n f : Nat) (l : List Char)
    (hs : takeSign l = (neg, fmtBody n f)) :
    parseFloatChars l = some (mkRat (cond neg (-(n : Int)) (n : Int)) (10 ^ f)) := by
  have hfrac : n % 10 ^ f < 10 ^ f := Nat.mod_lt _ (by positivity)
  by_cases hf : f = 0
  · subst hf
    have hbody : fmtBody n 0 = natDigits n := by simp [fmtBody]
    rw [hbody] at hs
    simp only [parseFloatChars]
    rw [hs]
    simp only [takeWhile_all (natDigits n) (natDigits_all_digits n),
      dropWhile_all (natDigits n) (natDigits_all_digits n), natDigits_isEmpty,
      natOfDigits_natDigits]
    cases neg <;> simp
  · have hbody : fmtBody n f = natDigits (n / 10 ^ f) ++ '.' :: padDigits f (n % 10 ^ f) := by
      simp [fmtBody, hf]
    rw [hbody] at hs
    simp only [parseFloatChars]
    rw [hs]
    have hdot : isDigitChar '.' = false := by decide
    simp only [takeWhile_append_all _ _ (natDigits_all_digits _),
      dropWhile_append_all _ _ (natDigits_all_digits _),
      List.takeWhile_cons, List.dropWhile_cons, hdot, Bool.false_eq_true, if_false,
      List.append_nil,
      takeWhile_all _ (padDigits_all_digits f _ hfrac),
      dropWhile_all _ (padDigits_all_digits f _ hfrac), natDigits_isEmpty,
      natOfDigits_natDigits, natOfDigits_padDigits f _ hfrac, padDigits_length]
    rw [show n / 10 ^ f * 10 ^ f + n % 10 ^ f = n from by
      rw [Nat.mul_comm]; exact Nat.div_add_mod n (10 ^ f)]
    cases neg <;> simp

theorem parseFloat_fmtDecimal (v : DecimalVal) :
    parseFloatChars (fmtDecimal v) = some v.toRat := by
  by_cases hm : v.mant < 0
  · rw [fmtDecimal_eq_body, if_pos hm, List.singleton_append,
      parseFloat_after_sign true v.mant.natAbs v.frac _ (takeSign_minus _)]
    rw [DecimalVal.toRat]
    simp only [Bool.cond_true]
    rw [show -(v.mant.natAbs : Int) = v.mant from by omega]
  · rw [fmtDecimal_eq_body, if_neg hm, List.nil_append]
    obtain ⟨c, cs, hcons, hdig⟩ := natDigits_head_digit (v.mant.natAbs / 10 ^ v.frac)
    have hsgn : takeSign (fmtBody v.mant.natAbs v.frac) =
        (false, fmtBody v.mant.natAbs v.frac) := by
      rw [fmtBody, hcons, List.cons_append, takeSign_digit c _ hdig, ← List.cons_append,
        ← hcons, ← fmtBody]
    rw [parseFloat_after_sign false v.mant.natAbs v.frac _ hsgn]
    rw [DecimalVal.toRat]
    simp only [Bool.cond_false]
    rw [show (v.mant.natAbs : Int) = v.mant from by omega]

theorem beq_char_false (c d : Char) (h : c.toNat ≠ d.toNat) : (c == d) = false := by
  cases hbe : c == d with
  | false => rfl
  | true =>
    rw [beq_iff_eq] at hbe
    subst hbe
    exact absurd rfl h

theorem digit_char_class (c : Char) (h : isDigitChar c = true) :
    rustIsWhitespace c = false ∧ (c == '<') = false ∧ (c == '>') = false := by
  have hb : 48 ≤ c.toNat ∧ c.toNat ≤ 57 := by simpa [isDigitChar] using h
  refine ⟨?_, ?_, ?_⟩
  · simp only [rustIsWhitespace]
    rw [beq_char_false c ' ' (by rw [show (' ' : Char).toNat = 32 from rfl]; omega),
      beq_char_false c '\t' (by rw [show ('\t' : Char).toNat = 9 from rfl]; omega),
      beq_char_false c '\n' (by rw [show ('\n' : Char).toNat = 10 from rfl]; omega),
      beq_char_false c '\r' (by rw [show ('\r' : Char).toNat = 13 from rfl]; omega),
      beq_char_false c '\x0b' (by rw [show ('\x0b' : Char).toNat = 11 from rfl]; omega),
      beq_char_false c '\x0c' (by rw [show ('\x0c' : Char).toNat = 12 from rfl]; omega)]
    rfl
  · exact beq_char_false c '<' (by rw [show ('<' : Char).toNat = 60 from rfl]; omega)
  · exact beq_char_false c '>' (by rw [show ('>' : Char).toNat = 62 from rfl]; omega)

theorem decTokenChar_class (c : Char) (h : decTokenChar c) :
    rustIsWhitespace c = false ∧ (c == '<') = false ∧ (c == '>') = false := by
  rcases h with rfl | rfl | h
  · exact ⟨by decide, by decide, by decide⟩
  · exact ⟨by decide, by decide, by decide⟩
  · exact digit_char_class c h

theorem fmtDecimal_chars (v : DecimalVal) : ∀ c ∈ fmtDecimal v, decTokenChar c := by
  intro c hc
  simp only [fmtDecimal, List.mem_append] at hc
  rcases hc with (hc | hc) | hc
  · by_cases hm : v.mant < 0
    · rw [if_pos hm] at hc
      rw [List.mem_singleton] at hc
      exact Or.inl hc
    · rw [if_neg hm] at hc
      exact absurd hc (List.not_mem_nil c)
  · exact Or.inr (Or.inr (natDigits_all_digits _ c hc))
  · by_cases hf : v.frac = 0
    · rw [if_pos hf] at hc
      exact absurd hc (List.not_mem_nil c)
    · rw [if_neg hf] at hc
      rcases List.mem_cons.mp hc with rfl | hc
      · exact Or.inr (Or.inl rfl)
      · exact Or.inr (Or.inr (padDigits_all_digits _ _
          (Nat.mod_lt _ (by positivity)) c hc))

theorem fmtDecimal_ne_nil (v : DecimalVal) : fmtDecimal v ≠ [] := by
  intro h
  simp only [fmtDecimal, List.append_eq_nil] at h
  exact natDigits_ne_nil _ h.1.2

theorem splitWsAux_word (w : List Char) (rest acc : List Char)
    (h : ∀ c ∈ w, rustIsWhitespace c = false) :
    splitWsAux (w ++ rest) acc = splitWsAux rest (w.reverse ++ acc) := by
  induction w generalizing acc with
  | nil => simp
  | cons c cs ih =>
    have hc := h c (List.mem_cons_self c cs)
    simp only [List.cons_append, splitWsAux, hc, Bool.false_eq_true, if_false,
      List.append_eq]
    rw [ih _ (fun u hu => h u (List.mem_cons_of_mem _ hu))]
    simp

theorem reverse_isEmpty_false (w : List Char) (h : w ≠ []) :
    w.reverse.isEmpty = false := by
  cases hw : w.reverse with
  | nil => exact absurd (by simpa using congrArg List.reverse hw) h
  | cons a l => rfl

theorem splitWs_join (ws : List (List Char))
    (h : ∀ w ∈ ws, w ≠ [] ∧ ∀ c ∈ w, rustIsWhitespace c = false) :
    splitWhitespace (joinWords ws) = ws := by
  induction ws with
  | nil => simp [joinWords, splitWhitespace, splitWsAux]
  | cons w ws' ih =>
    obtain ⟨hne, hnw⟩ := h w (List.mem_cons_self _ _)
    cases ws' with
    | nil =>
      show splitWhitespace w = [w]
      unfold splitWhitespace
      rw [show w = w ++ [] from by simp] at hnw ⊢
      rw [splitWsAux_word _ [] [] (by simpa using hnw)]
      simp only [splitWsAux, List.append_nil] at *
      rw [reverse_isEmpty_false w hne]
      simp
    | cons u us =>
      have hrec := ih (fun x hx => h x (List.mem_cons_of_mem _ hx))
      show splitWhitespace (w ++ ' ' :: joinWords (u :: us)) = w :: u :: us
      unfold splitWhitespace
      rw [splitWsAux_word _ _ [] hnw]
      simp only [splitWsAux, show rustIsWhitespace ' ' = true from rfl, if_true,
        List.append_nil]
      rw [reverse_isEmpty_false w hne]
      simp only [Bool.false_eq_true, if_false, List.reverse_reverse]
      unfold splitWhitespace at hrec
      rw [hrec]

theorem dropWhile_no {p : Char → Bool} (l : List Char) (h : ∀ c ∈ l, p c = false) :
    l.dropWhile p = l := by
  cases l with
  | nil => rfl
  | cons c cs =>
    rw [List.dropWhile_cons, h c (List.mem_cons_self c cs)]
    simp

theorem dropAngles_wrap (body : List Char)
    (hno : ∀ c ∈ body, (c == '<') = false ∧ (c == '>') = false) :
    dropAngles ('<' :: body ++ ['>']) = body := by
  unfold dropAngles
  have h1 : List.dropWhile (fun x => x == '<') ('<' :: body ++ ['>']) = body ++ ['>'] := by
    rw [List.cons_append, List.dropWhile_cons]
    simp only [show (('<' : Char) == '<') = true from rfl, if_true]
    exact dropWhile_no _ (fun c hc => by
      rcases List.mem_append.mp hc with hc' | hc'
      · exact (hno c hc').1
      · rw [List.mem_singleton] at hc'
        subst hc'
        rfl)
  rw [h1]
  rw [show (body ++ ['>']).reverse = '>' :: body.reverse from by simp]
  rw [List.dropWhile_cons]
  simp only [show (('>' : Char) == '>') = true from rfl, if_true]
  rw [dropWhile_no _ (fun c hc => (hno c (List.mem_reverse.mp hc)).2)]
  simp

theorem joinWords_chars (ws : List (List Char)) :
    ∀ c ∈ joinWords ws, c = ' ' ∨ ∃ w ∈ ws, c ∈ w := by
  induction ws with
  | nil => simp [joinWords]
  | cons w ws' ih =>
    cases ws' with
    | nil =>
      intro c hc
      exact Or.inr ⟨w, List.mem_cons_self _ _, hc⟩
    | cons u us =>
      intro c hc
      rw [show joinWords (w :: u :: us) = w ++ ' ' :: joinWords (u :: us) from rfl] at hc
      rcases List.mem_append.mp hc with hc' | hc'
      · exact Or.inr ⟨w, List.mem_cons_self _ _, hc'⟩
      · rcases List.mem_cons.mp hc' with rfl | hc''
        · exact Or.inl rfl
        · rcases ih c hc'' with h | ⟨x, hx, hcx⟩
          · exact Or.inl h
          · exact Or.inr ⟨x, List.mem_cons_of_mem _ hx, hcx⟩

/-- Decoding a well-formed positional acknowledgment: six whitespace-free
tokens joined by single spaces between angle brackets decode positionally. -/
theorem parse_ack_positional_aux (l1 l2 l3 l4 l5 l6 : List Char)
    (q1 q2 q3 q4 q5 q6 : ℚ)
    (h1 : parseFloatChars l1 = some q1) (h2 : parseFloatChars l2 = some q2)
    (h3 : parseFloatChars l3 = some q3) (h4 : parseFloatChars l4 = some q4)
    (h5 : parseFloatChars l5 = some q5) (h6 : parseFloatChars l6 = some q6)
    (hw : ∀ w ∈ [l1, l2, l3, l4, l5, l6], w ≠ [] ∧ ∀ c ∈ w,
      rustIsWhitespace c = false ∧ (c == '<') = false ∧ (c == '>') = false) :
    parse_config_ack_chars ('<' :: joinWords [l1, l2, l3, l4, l5, l6] ++ ['>']) =
      Except.ok ⟨q1, q2, q3, q4, q5, q6⟩ := by
  have hang : ∀ c ∈ joinWords [l1, l2, l3, l4, l5, l6],
      (c == '<') = false ∧ (c == '>') = false := by
    intro c hc
    rcases joinWords_chars _ c hc with rfl | ⟨w, hwmem, hcw⟩
    · exact ⟨by decide, by decide⟩
    · exact ((hw w hwmem).2 c hcw).2
  have hsplit : splitWhitespace (joinWords [l1, l2, l3, l4, l5, l6]) =
      [l1, l2, l3, l4, l5, l6] :=
    splitWs_join _ (fun w hwmem =>
      ⟨(hw w hwmem).1, fun c hcw => ((hw w hwmem).2 c hcw).1⟩)
  unfold parse_config_ack_chars
  rw [dropAngles_wrap _ hang, hsplit]
  simp only [List.length_cons, List.length_nil]
  rw [if_neg (by omega)]
  simp only [List.getD_cons_zero, List.getD_cons_succ]
  rw [h1, h2, h3, h4, h5, h6]

theorem rustClamp_mem (x lo hi : ℚ) (h : lo ≤ hi) :
    lo ≤ rustClamp x lo hi ∧ rustClamp x lo hi ≤ hi := by
  unfold rustClamp
  split_ifs with h1 h2 <;> constructor <;> linarith

theorem ui_run_append (xs ys : List (Nat × UiEvent)) (a : App) :
    ui_run (xs ++ ys) a =
      ((ui_run xs a).1 ++ (ui_run ys (ui_run xs a).2).1, (ui_run ys (ui_run xs a).2).2) := by
  induction xs generalizing a with
  | nil => simp [ui_run]
  | cons x rest ih =>
    rcases x with ⟨t, e⟩
    simp [ui_run, ih]

theorem ui_run_checks_idle (ts : List Nat) (a : App) (h : a.pending_config = false) :
    ui_run (checksAt ts) a = ([], a) := by
  induction ts with
  | nil => simp [checksAt, ui_run]
  | cons t rest ih =>
    simp only [checksAt, List.map_cons, ui_run, ui_step]
    rw [show send_config_if_pending t a = (none, a) from ?_]
    · simpa [checksAt] using ih
    · unfold send_config_if_pending
      rw [if_neg]
      simp [h]

theorem ui_run_checks_waiting (ts : List Nat) (a : App)
    (h : ∀ t ∈ ts, t < a.last_config_sent + DEBOUNCE_MS) :
    ui_run (checksAt ts) a = ([], a) := by
  induction ts with
  | nil => simp [checksAt, ui_run]
  | cons t rest ih =>
    simp only [checksAt, List.map_cons, ui_run, ui_step]
    rw [show send_config_if_pending t a = (none, a) from ?_]
    · simpa [checksAt] using ih (fun u hu => h u (List.mem_cons_of_mem _ hu))
    · unfold send_config_if_pending
      rw [if_neg]
      rintro ⟨-, hc⟩
      have ht := h t (List.mem_cons_self t rest)
      simp only [DEBOUNCE_MS] at hc ht
      omega

theorem ui_run_checks_armed (ts : List Nat) (a : App)
    (hp : a.pending_config = true)
    (h : ∃ t ∈ ts, a.last_config_sent + DEBOUNCE_MS ≤ t) :
    ∃ t0, a.last_config_sent + DEBOUNCE_MS ≤ t0 ∧
      (ui_run (checksAt ts) a).1 = [(t0, a.current_config)] := by
  induction ts with
  | nil => simp at h
  | cons t rest ih =>
    by_cases hfire : a.last_config_sent + DEBOUNCE_MS ≤ t
    · refine ⟨t, hfire, ?_⟩
      simp only [checksAt, List.map_cons, ui_run, ui_step]
      rw [show send_config_if_pending t a =
          (some a.current_config, { a with pending_config := false }) from ?_]
      · have hrest : ui_run (checksAt rest) { a with pending_config := false } =
            ([], { a with pending_config := false }) :=
          ui_run_checks_idle rest _ rfl
        simp [checksAt] at hrest
        simp [hrest]
      · unfold send_config_if_pending
        rw [if_pos]
        refine ⟨hp, ?_⟩
        simp only [DEBOUNCE_MS] at hfire ⊢
        omega
    · rcases h with ⟨u, hu, hule⟩
      rcases List.mem_cons.mp hu with rfl | hu'
      · exact absurd hule hfire
      · rcases ih ⟨u, hu', hule⟩ with ⟨t0, ht0, hout⟩
        refine ⟨t0, ht0, ?_⟩
        simp only [checksAt, List.map_cons, ui_run, ui_step]
        rw [show send_config_if_pending t a = (none, a) from ?_]
        · simpa [checksAt] using hout
        · unfold send_config_if_pending
          rw [if_neg]
          rintro ⟨-, hc⟩
          simp only [DEBOUNCE_MS] at hc
          simp only [DEBOUNCE_MS] at hfire
          omega

end GlowStation

/-
Claim theorems.
-/

namespace GlowStation

/-- Claim C1 (amended): the response handling of `set_configuration` returns
an error exactly for a decoded-but-mismatched acknowledgment.  If the trimmed
acknowledgment is angle-bracket framed and decodes as a configuration, the
call returns the validation verdict (the validation error when some field
differs from the sent configuration by more than 0.01, success otherwise);
if the acknowledgment fails to decode, or is not framed, the failure is only
logged as a warning and the call returns `Ok` with the raw response.  The
controller structure holds only the serial port, so there is no cached
current configuration to update on either path. -/
theorem c1_set_configuration_ack_error_paths (cfg : TecConfig) (resp : String) :
    ((rustTrim resp.data).head? = some '<' ∧ (rustTrim resp.data).getLast? = some '>' →
      (∀ r, parse_config_ack_chars (rustTrim resp.data) = Except.ok r →
        set_configuration_ack cfg resp =
          Except.map (fun _ => String.mk (rustTrim resp.data)) (validate_config_match cfg r)) ∧
      (∀ e, parse_config_ack_chars (rustTrim resp.data) = Except.error e →
        set_configuration_ack cfg resp = Except.ok (String.mk (rustTrim resp.data)))) ∧
    (¬ ((rustTrim resp.data).head? = some '<' ∧ (rustTrim resp.data).getLast? = some '>') →
      set_configuration_ack cfg resp = Except.ok (String.mk (rustTrim resp.data))) := by
  unfold set_configuration_ack
  by_cases hf : (rustTrim resp.data).head? = some '<' ∧ (rustTrim resp.data).getLast? = some '>'
  · rw [if_pos hf]
    refine ⟨fun _ => ⟨?_, ?_⟩, fun hn => absurd hf hn⟩
    · intro r hr
      rw [hr]
      cases hv : validate_config_match cfg r <;> simp [hv, Except.map]
    · intro e he
      rw [he]
  · rw [if_neg hf]
    exact ⟨fun h => absurd h hf, fun _ => rfl⟩

/-- Claim C1 counterexample: the acknowledgment `<x y z w u v>` fails to
decode as a configuration, yet `set_configuration` returns `Ok` (the decode
failure is only a logged warning), contradicting the claim that any decode
failure yields an error. -/
theorem c1_unparsable_ack_returns_ok_cex :
    parse_config_acknowledgment ("<x y z w u v>") = Except.error "invalid float literal" ∧
    set_configuration_ack cfgExample ("<x y z w u v>") = Except.ok ("<x y z w u v>") := by
  decide

/-- Claim C2 (amended): the configuration-acknowledgment decoder supports
only the positional variant.  Content between `<` and `>` that splits on
whitespace into exactly six parsable tokens is decoded positionally in
command order (`t_set p i d t_min t_max`); a keyed `key=value` acknowledgment
is not recognized and fails to decode (see the counterexample). -/
theorem c2_positional_ack_decode (l1 l2 l3 l4 l5 l6 : List Char)
    (q1 q2 q3 q4 q5 q6 : ℚ)
    (h1 : parseFloatChars l1 = some q1) (h2 : parseFloatChars l2 = some q2)
    (h3 : parseFloatChars l3 = some q3) (h4 : parseFloatChars l4 = some q4)
    (h5 : parseFloatChars l5 = some q5) (h6 : parseFloatChars l6 = some q6)
    (hw : ∀ w ∈ [l1, l2, l3, l4, l5, l6], w ≠ [] ∧ ∀ c ∈ w,
      rustIsWhitespace c = false ∧ (c == '<') = false ∧ (c == '>') = false) :
    parse_config_ack_chars ('<' :: joinWords [l1, l2, l3, l4, l5, l6] ++ ['>']) =
      Except.ok ⟨q1, q2, q3, q4, q5, q6⟩ :=
  parse_ack_positional_aux l1 l2 l3 l4 l5 l6 q1 q2 q3 q4 q5 q6 h1 h2 h3 h4 h5 h6 hw

/-- Witness for claim C2 at a concrete positional acknowledgment. -/
theorem c2_positional_ack_decode_witness :
    parse_config_ack_chars ('<' :: joinWords [("25.5").data, ("5").data, ("2").data,
      ("1").data, ("0").data, ("50").data] ++ ['>']) =
      Except.ok ⟨mkRat 255 10, 5, 2, 1, 0, 50⟩ :=
  c2_positional_ack_decode _ _ _ _ _ _ _ _ _ _ _ _ (by decide) (by decide) (by decide)
    (by decide) (by decide) (by decide) (by decide)

/-- Claim C2 counterexample: a keyed acknowledgment (`key=value` pairs as
described by the spec) is rejected with a float-parse error instead of being
decoded by key; the claimed keyed variant does not exist in the decoder. -/
theorem c2_keyed_ack_rejected_cex :
    parse_config_acknowledgment
        ("<eTzc=25.0 eKp=5.0 eKi=2.0 eKd=1.0 eTmin=0.0 eTmax=50.0>") =
      Except.error "invalid float literal" := by
  decide

/-- Claim C3 (amended): when configuration and enable succeed, the
experiment sequencer enables device output before any phase; it disables
output after the final phase only on the path where both convergence waits
reach their targets (and the camera-stop call succeeds) — a convergence
timeout aborts the remaining sequence via an early return that never issues
the disable command. -/
theorem c3_enable_disable_paths (restTemp snapTemp : ℚ) (o : ExpOutcomes) (s1 s2 : String)
    (hc : o.configResult = Except.ok s1) (he : o.enableResult = Except.ok s2) :
    (∃ tl, (experimentRun restTemp snapTemp o).1 =
      ExpEvent.configure :: ExpEvent.enableTec :: tl) ∧
    (ExpEvent.disableTec ∈ (experimentRun restTemp snapTemp o).1 ↔
      (o.wait0Reached = true ∧ o.wait2Reached = true ∧
        o.cameraStopResult = Except.ok ())) ∧
    (o.wait0Reached = true → o.wait2Reached = true → o.cameraStopResult = Except.ok () →
      (experimentRun restTemp snapTemp o).1.getLast? = some ExpEvent.disableTec) := by
  rcases o with ⟨cr, er, w0, w2, cs, dr⟩
  simp only at hc he
  subst hc he
  rcases cs with e | u
  · cases w0 <;> cases w2 <;> simp [experimentRun]
  · cases u
    cases w0 <;> cases w2 <;> simp [experimentRun]

/-- Witness for claim C3 on the all-successful outcome. -/
theorem c3_enable_disable_paths_witness :
    (∃ tl, (experimentRun 25 35 ⟨Except.ok "", Except.ok "", true, true,
      Except.ok (), Except.ok ""⟩).1 = ExpEvent.configure :: ExpEvent.enableTec :: tl) ∧
    (ExpEvent.disableTec ∈ (experimentRun 25 35 ⟨Except.ok "", Except.ok "", true, true,
      Except.ok (), Except.ok ""⟩).1 ↔
      ((⟨Except.ok "", Except.ok "", true, true, Except.ok (), Except.ok ""⟩ :
        ExpOutcomes).wait0Reached = true ∧
       (⟨Except.ok "", Except.ok "", true, true, Except.ok (), Except.ok ""⟩ :
        ExpOutcomes).wait2Reached = true ∧
       (⟨Except.ok "", Except.ok "", true, true, Except.ok (), Except.ok ""⟩ :
        ExpOutcomes).cameraStopResult = Except.ok ())) ∧
    ((⟨Except.ok "", Except.ok "", true, true, Except.ok (), Except.ok ""⟩ :
        ExpOutcomes).wait0Reached = true →
     (⟨Except.ok "", Except.ok "", true, true, Except.ok (), Except.ok ""⟩ :
        ExpOutcomes).wait2Reached = true →
     (⟨Except.ok "", Except.ok "", true, true, Except.ok (), Except.ok ""⟩ :
        ExpOutcomes).cameraStopResult = Except.ok () →
      (experimentRun 25 35 ⟨Except.ok "", Except.ok "", true, true,
        Except.ok (), Except.ok ""⟩).1.getLast? = some ExpEvent.disableTec) :=
  c3_enable_disable_paths 25 35
    ⟨Except.ok "", Except.ok "", true, true, Except.ok (), Except.ok ""⟩ "" "" rfl rfl

/-- Claim C3 counterexample: when the first convergence wait times out, the
run aborts with an error after output was enabled and the disable command is
never issued — cleanup does not happen on this exit path. -/
theorem c3_timeout_leaves_tec_enabled_cex :
    (experimentRun 25 35 ⟨Except.ok "", Except.ok "", false, true,
        Except.ok (), Except.ok ""⟩).2 = Except.error "Timeout waiting for temperature" ∧
    ExpEvent.enableTec ∈ (experimentRun 25 35 ⟨Except.ok "", Except.ok "", false, true,
        Except.ok (), Except.ok ""⟩).1 ∧
    ExpEvent.disableTec ∉ (experimentRun 25 35 ⟨Except.ok "", Except.ok "", false, true,
        Except.ok (), Except.ok ""⟩).1 := by
  refine ⟨rfl, ?_, ?_⟩ <;> simp [experimentRun]

/-- Claim C4 (amended): in every worker-loop iteration, a readout is
attempted if and only if the 500 ms poll interval has elapsed since the last
readout attempt (`last_read` is reset after every attempt, successful or
not — not only after successful reads); each attempt publishes `Readout` on
success or `Error` on failure; and the loop terminates only on `Shutdown`,
never because an operation failed. -/
theorem c4_worker_iteration_poll_and_publish (now : Nat) (cmd : Option WorkerCommand)
    (cmdResult : Except String String) (readResult : Except String TecReadout)
    (s : WorkerState) :
    ((worker_iteration now cmd cmdResult readResult s).stopped = true ↔
      cmd = some WorkerCommand.Shutdown) ∧
    ((worker_iteration now cmd cmdResult readResult s).didRead = true ↔
      (cmd ≠ some WorkerCommand.Shutdown ∧ read_interval ≤ now - s.lastRead)) ∧
    (∀ r, readResult = Except.ok r →
      (worker_iteration now cmd cmdResult readResult s).didRead = true →
      WorkerResponse.Readout r ∈ (worker_iteration now cmd cmdResult readResult s).responses) ∧
    (∀ e, readResult = Except.error e →
      (worker_iteration now cmd cmdResult readResult s).didRead = true →
      WorkerResponse.Error ("Read error: " ++ e) ∈
        (worker_iteration now cmd cmdResult readResult s).responses) := by
  rcases cmd with _ | c
  · by_cases h : read_interval ≤ now - s.lastRead <;> cases readResult <;>
      cases cmdResult <;> simp [worker_iteration, h]
  · cases c <;> by_cases h : read_interval ≤ now - s.lastRead <;> cases readResult <;>
      cases cmdResult <;> simp [worker_iteration, h]

/-- Claim C4 counterexample: a successful read at t=0, then a failed attempt
at t=600.  At t=700, 700 ms have elapsed since the last successful read, so
the claim demands a readout attempt; the worker attempts nothing (no
response is published) because only 100 ms have elapsed since the failed
attempt — the gate runs on the last attempt, not the last success. -/
theorem c4_poll_gate_uses_last_attempt_cex :
    500 ≤ 700 - ((worker_iteration 600 none (Except.ok "") (Except.error "io")
        ⟨0, 0⟩).state).lastSuccess ∧
    (worker_iteration 700 none (Except.ok "") (Except.ok exampleReadout)
        (worker_iteration 600 none (Except.ok "") (Except.error "io") ⟨0, 0⟩).state).didRead
      = false ∧
    (worker_iteration 700 none (Except.ok "") (Except.ok exampleReadout)
        (worker_iteration 600 none (Except.ok "") (Except.error "io") ⟨0, 0⟩).state).responses
      = [] := by
  decide

/-- Claim C5: decoding the documented example readout line
`Tz=+25.00 P= 5.00 I= 2.00 D= 1.00 T=  0...+50 Tr=+25.01 OC=0 PW=+ 25`
succeeds with t_set 25, P 5, I 2, D 1, t_min 0, t_max 50, t_measured 25.01,
OC false, PWM 25. -/
theorem c5_example_readout_decode :
    parse_readout ("Tz=+25.00 P= 5.00 I= 2.00 D= 1.00 T=  0...+50 Tr=+25.01 OC=0 PW=+ 25") =
      Except.ok ⟨25, 5, 2, 1, 0, 50, (2501 : ℚ) / 100, false, 25⟩ := by
  have h : (2501 : ℚ) / 100 = mkRat 2501 100 := by rw [mkRat_div_eq]; norm_num
  rw [h]
  decide

/-- Claim C6: for every configuration (every `f32` configuration is a
`DecimalConfig`), rendering the positional configuration command
`<t_set p i d t_min t_max>` and decoding that exact string through the
positional acknowledgment decoder returns the original configuration
exactly, so each field is within the 0.01 tolerance and validation of the
echoed command succeeds. -/
theorem c6_config_command_roundtrip (c : DecimalConfig) :
    parse_config_ack_chars (configCommandChars c) = Except.ok c.toConfig ∧
    validate_config_match c.toConfig c.toConfig = Except.ok () := by
  constructor
  · have hshape : configCommandChars c =
        '<' :: joinWords [fmtDecimal c.t_set, fmtDecimal c.p, fmtDecimal c.i,
          fmtDecimal c.d, fmtDecimal c.t_min, fmtDecimal c.t_max] ++ ['>'] := by
      simp [configCommandChars, joinWords]
    rw [hshape]
    exact parse_ack_positional_aux _ _ _ _ _ _ _ _ _ _ _ _
      (parseFloat_fmtDecimal c.t_set) (parseFloat_fmtDecimal c.p)
      (parseFloat_fmtDecimal c.i) (parseFloat_fmtDecimal c.d)
      (parseFloat_fmtDecimal c.t_min) (parseFloat_fmtDecimal c.t_max)
      (by
        intro w hwmem
        have hex : ∃ v : DecimalVal, w = fmtDecimal v := by
          simp only [List.mem_cons, List.not_mem_nil, or_false] at hwmem
          rcases hwmem with rfl | rfl | rfl | rfl | rfl | rfl
          · exact ⟨c.t_set, rfl⟩
          · exact ⟨c.p, rfl⟩
          · exact ⟨c.i, rfl⟩
          · exact ⟨c.d, rfl⟩
          · exact ⟨c.t_min, rfl⟩
          · exact ⟨c.t_max, rfl⟩
        rcases hex with ⟨v, rfl⟩
        exact ⟨fmtDecimal_ne_nil v, fun ch hch =>
          decTokenChar_class ch (fmtDecimal_chars v ch hch)⟩)
  · unfold validate_config_match
    simp [rustAbs, tolerance]
    norm_num

/-- Claim C7: for every input line whose split on `=` yields fewer than nine
sections, readout decoding returns the protocol format error
`Not enough sections in response`; the decoder is a total function on all
strings, so no input can make it panic. -/
theorem c7_short_readout_is_format_error (s : String)
    (h : (splitOnChar '=' s.data).length < 9) :
    parse_readout s = Except.error "Not enough sections in response" := by
  have hle : (splitOnChar '=' (rustTrim s.data)).length ≤ (splitOnChar '=' s.data).length := by
    rw [splitOnChar_length, splitOnChar_length]
    exact Nat.add_le_add_right (countP_rustTrim_le _ _) 1
  simp only [parse_readout]
  rw [if_pos (lt_of_le_of_lt hle h)]

/-- Witness for claim C7 at the concrete input `hello`. -/
theorem c7_short_readout_is_format_error_witness :
    (splitOnChar '=' ("hello").data).length < 9 ∧
    parse_readout ("hello") = Except.error "Not enough sections in response" :=
  ⟨by decide, c7_short_readout_is_format_error ("hello") (by decide)⟩

/-- Claim C8: with configuration edits at t = 0, 40 and 90 ms carrying
values `v1`, `v2`, `v3`, no later edits, and debounce checks at arbitrary
times between the edits (bounded by the next edit's time) and after the last
edit (at least one at t ≥ 240 ms), exactly one `SetConfig` command is
enqueued; it is enqueued at a check time no earlier than 240 ms (150 ms of
quiescence after the edit at 90 ms) and carries `v3`. -/
theorem c8_debounced_single_setconfig (v1 v2 v3 : TecConfig)
    (cs1 cs2 cs3 cs4 : List Nat) (a0 : App)
    (h0 : a0.pending_config = false)
    (h2 : ∀ t ∈ cs2, t ≤ 40) (h3 : ∀ t ∈ cs3, t ≤ 90)
    (h4 : ∃ t ∈ cs4, 240 ≤ t) :
    ∃ t0, 240 ≤ t0 ∧
      (ui_run (checksAt cs1 ++ ((0, UiEvent.editConfig v1) :: (checksAt cs2 ++
        ((40, UiEvent.editConfig v2) :: (checksAt cs3 ++
        ((90, UiEvent.editConfig v3) :: checksAt cs4)))))) a0).1 = [(t0, v3)] := by
  have e1 : ui_run (checksAt cs1) a0 = ([], a0) := ui_run_checks_idle cs1 a0 h0
  rw [ui_run_append, e1]
  simp only [ui_run, ui_step]
  set a1 : App := apply_configuration 0 { a0 with current_config := v1 } with ha1
  have e2 : ui_run (checksAt cs2) a1 = ([], a1) := by
    refine ui_run_checks_waiting cs2 a1 ?_
    intro t ht
    have h40 := h2 t ht
    simp only [ha1, apply_configuration, DEBOUNCE_MS]
    omega
  rw [ui_run_append, e2]
  simp only [ui_run, ui_step]
  set a2 : App := apply_configuration 40 { a1 with current_config := v2 } with ha2
  have e3 : ui_run (checksAt cs3) a2 = ([], a2) := by
    refine ui_run_checks_waiting cs3 a2 ?_
    intro t ht
    have h90 := h3 t ht
    simp only [ha2, apply_configuration, DEBOUNCE_MS]
    omega
  rw [ui_run_append, e3]
  simp only [ui_run, ui_step]
  set a3 : App := apply_configuration 90 { a2 with current_config := v3 } with ha3
  have hp3 : a3.pending_config = true := by simp [ha3, apply_configuration]
  have hl3 : a3.last_config_sent = 90 := by simp [ha3, apply_configuration]
  have hc3 : a3.current_config = v3 := by simp [ha3, ha2, ha1, apply_configuration]
  rcases ui_run_checks_armed cs4 a3 hp3 (by rw [hl3]; simpa [DEBOUNCE_MS] using h4)
    with ⟨t0, ht0, hout⟩
  rw [hl3] at ht0
  refine ⟨t0, by simp only [DEBOUNCE_MS] at ht0; omega, ?_⟩
  simp [hout, hc3]

/-- Witness for claim C8 with concrete edits and check times. -/
theorem c8_debounced_single_setconfig_witness :
    ∃ t0, 240 ≤ t0 ∧
      (ui_run (checksAt [] ++ ((0, UiEvent.editConfig ⟨20, 5, 2, 1, 0, 50⟩) :: (checksAt [20] ++
        ((40, UiEvent.editConfig ⟨21, 5, 2, 1, 0, 50⟩) :: (checksAt [60] ++
        ((90, UiEvent.editConfig ⟨22, 5, 2, 1, 0, 50⟩) :: checksAt [100, 250, 300]))))))
        appExample).1 = [(t0, ⟨22, 5, 2, 1, 0, 50⟩)] :=
  c8_debounced_single_setconfig ⟨20, 5, 2, 1, 0, 50⟩ ⟨21, 5, 2, 1, 0, 50⟩ ⟨22, 5, 2, 1, 0, 50⟩
    [] [20] [60] [100, 250, 300] appExample rfl
    (by decide) (by decide) ⟨250, by decide, by decide⟩

/-- Claim C9: against an open setpoint change targeting 24.0 with tolerance
0.5, processing measured temperatures 25.0 and 24.6 leaves the change open
and the history empty; processing 24.4 (the third readout) closes it —
`reached_time` and `duration` populated, record moved to the history — and
processing 24.05 afterwards changes nothing. -/
theorem c9_setpoint_closed_at_third_readout (t1 t2 t3 t4 : Nat) :
    check_setpoint_reached t1 25 spTracker0 = spTracker0 ∧
    check_setpoint_reached t2 (246 / 10) spTracker0 = spTracker0 ∧
    check_setpoint_reached t3 (244 / 10) spTracker0 = spClosed t3 ∧
    check_setpoint_reached t4 (2405 / 100) (spClosed t3) = spClosed t3 := by
  refine ⟨?_, ?_, ?_, ?_⟩ <;>
    simp [check_setpoint_reached, spTracker0, spClosed, rustAbs] <;> norm_num

/-- Claim C10 (amended): with `t_min ≤ t_max`, `set_new_temperature` clamps
the request into `[t_min, t_max]`; if the clamped value is within 0.01 of
the current `t_set` the call is a no-op (state returned unchanged: no
setpoint-change record, no scheduled write), otherwise `t_set` becomes the
clamped value — which lies in `[t_min, t_max]` — a fresh setpoint-change
record replaces any open one and a debounced write is scheduled.  The band
invariant `t_min ≤ t_set ≤ t_max` therefore holds after every call that
changes `t_set`, but not unconditionally: in the no-op case a `t_set`
already outside the band (by up to 0.01) is left there (see the
counterexample). -/
theorem c10_set_new_temperature_clamp_behavior (now : Nat) (x : ℚ) (a : App)
    (hb : a.current_config.t_min ≤ a.current_config.t_max) :
    (rustAbs (rustClamp x a.current_config.t_min a.current_config.t_max
        - a.current_config.t_set) ≤ 1 / 100 →
      set_new_temperature now x a = a) ∧
    (1 / 100 < rustAbs (rustClamp x a.current_config.t_min a.current_config.t_max
        - a.current_config.t_set) →
      (set_new_temperature now x a).current_config =
        { a.current_config with
          t_set := rustClamp x a.current_config.t_min a.current_config.t_max } ∧
      (set_new_temperature now x a).current_setpoint_change =
        some ⟨rustClamp x a.current_config.t_min a.current_config.t_max, now, none, none⟩ ∧
      (set_new_temperature now x a).pending_config = true ∧
      (set_new_temperature now x a).last_config_sent = now ∧
      a.current_config.t_min ≤ (set_new_temperature now x a).current_config.t_set ∧
      (set_new_temperature now x a).current_config.t_set ≤ a.current_config.t_max) := by
  constructor
  · intro h
    unfold set_new_temperature
    rw [if_neg (not_lt.mpr h)]
  · intro h
    unfold set_new_temperature apply_configuration
    rw [if_pos h]
    refine ⟨rfl, rfl, rfl, rfl, ?_, ?_⟩ <;> simp <;>
      [exact (rustClamp_mem x _ _ hb).1; exact (rustClamp_mem x _ _ hb).2]

/-- Witness for claim C10: requesting 30 °C on `appExample` (band 0..50,
t_set 25) installs the clamped value and schedules the write. -/
theorem c10_set_new_temperature_clamp_behavior_witness :
    (set_new_temperature 7 30 appExample).current_config =
      { appExample.current_config with
        t_set := rustClamp 30 appExample.current_config.t_min
          appExample.current_config.t_max } ∧
    (set_new_temperature 7 30 appExample).current_setpoint_change =
      some ⟨rustClamp 30 appExample.current_config.t_min appExample.current_config.t_max,
        7, none, none⟩ ∧
    (set_new_temperature 7 30 appExample).pending_config = true ∧
    (set_new_temperature 7 30 appExample).last_config_sent = 7 ∧
    appExample.current_config.t_min ≤ (set_new_temperature 7 30 appExample).current_config.t_set ∧
    (set_new_temperature 7 30 appExample).current_config.t_set ≤
      appExample.current_config.t_max :=
  (c10_set_new_temperature_clamp_behavior 7 30 appExample
      (by norm_num [appExample, cfgExample])).2
    (by norm_num [appExample, cfgExample, rustClamp, rustAbs])

/-- Claim C10 counterexample: a state with `t_min ≤ t_max` whose `t_set`
sits 0.005 above `t_max`.  Requesting 25 °C clamps to 20, which is within
0.01 of `t_set`, so the call is a no-op — and `t_min ≤ t_set ≤ t_max` does
not hold after the call, refuting the unconditional invariant. -/
theorem c10_noop_leaves_t_set_outside_band_cex :
    appOutOfBand.current_config.t_min ≤ appOutOfBand.current_config.t_max ∧
    set_new_temperature 0 25 appOutOfBand = appOutOfBand ∧
    ¬ (appOutOfBand.current_config.t_set ≤ appOutOfBand.current_config.t_max) := by
  refine ⟨by norm_num [appOutOfBand], ?_, by norm_num [appOutOfBand]⟩
  unfold set_new_temperature
  rw [if_neg]
  norm_num [appOutOfBand, rustClamp, rustAbs]

end GlowStation
